import Mathlib

/-!
Verification of the SSE reverse proxy (`mcp-server/first-mcp-server/proxy.py`)
and the MCP tool aggregator (`mcp-proxy/proxy.py`).

The Python code is shallowly embedded: byte streams that the proxy has already
decoded are modelled as `List Char`, the per-chunk relay loop of
`handle_sse_request` becomes a fold over chunks with an explicit buffer state,
and the Python dictionaries (`active_connections`, `servers`, `tools_registry`)
become association lists that preserve insertion order, exactly as CPython
dicts do.
-/

set_option autoImplicit false

/-- Python `str.strip()` whitespace, restricted to the ASCII whitespace
characters (space, tab, newline, carriage return, vertical tab, form feed). -/
def pyWhitespace (c : Char) : Bool :=
  c = ' ' || c = '\t' || c = '\n' || c = '\r' || c = '\x0b' || c = '\x0c'

/-- Python `str.strip()`: drop whitespace from both ends. -/
def pyStrip (s : List Char) : List Char :=
  ((s.dropWhile pyWhitespace).reverse.dropWhile pyWhitespace).reverse

/-- Frame kinds produced by `parse_sse_line` (proxy.py:319-332). -/
inductive FrameKind where
  | event
  | data
  | id
  | retry
  | separator
  | raw
deriving DecidableEq

/-- One classified SSE frame: the kind together with the extracted payload. -/
structure Frame where
  kind : FrameKind
  payload : List Char
deriving DecidableEq

/-- `MCPSSEProxy.parse_sse_line` (proxy.py:319-332): dispatch on the literal
line prefixes `event:`, `data:`, `id:`, `retry:`; the empty line is a
separator; anything else is a raw line. Payloads are stripped. -/
def parse_sse_line (line : List Char) : Frame :=
  if ("event:".toList).isPrefixOf line then ⟨.event, pyStrip (line.drop 6)⟩
  else if ("data:".toList).isPrefixOf line then ⟨.data, pyStrip (line.drop 5)⟩
  else if ("id:".toList).isPrefixOf line then ⟨.id, pyStrip (line.drop 3)⟩
  else if ("retry:".toList).isPrefixOf line then ⟨.retry, pyStrip (line.drop 6)⟩
  else if line = [] then ⟨.separator, []⟩
  else ⟨.raw, line⟩

/-- Split a buffer into its complete lines (the segments before each `'\n'`,
without the newline itself) and the trailing remainder after the last
newline.  This is what the `while '\n' in buffer` loop of
`handle_sse_request` (proxy.py:274-275) computes via repeated
`buffer.split('\n', 1)`. -/
def splitNl : List Char → List (List Char) × List Char
  | [] => ([], [])
  | c :: rest =>
    if c = '\n' then
      let p := splitNl rest
      (([] : List Char) :: p.1, p.2)
    else
      match splitNl rest with
      | ([], r) => ([], c :: r)
      | (l :: ls, r) => ((c :: l) :: ls, r)

/-- The logging action performed for one complete line
(proxy.py:277-280): only a line whose `strip()` is non-empty is parsed and
logged. -/
def lineLog (line : List Char) : Option Frame :=
  if pyStrip line = [] then none else some (parse_sse_line (pyStrip line))

/-- The forwarding action for one complete line (proxy.py:283-284): the
original line plus its trailing newline. -/
def lineWrite (line : List Char) : List Char := line ++ ['\n']

/-- State of the relay loop of `handle_sse_request`: the accumulation buffer,
the log of classified frames, and the sequence of downstream writes. -/
structure RelayAcc where
  buf : List Char
  log : List Frame
  writes : List (List Char)
deriving DecidableEq

def relayInit : RelayAcc := ⟨[], [], []⟩

/-- One iteration of the `async for chunk in ...` body after a successful
`chunk.decode('utf-8')` (proxy.py:270-289): append the decoded chunk to the
buffer, emit every complete line (logging the ones with non-blank content,
writing each with its newline), and then — the partial-line flush of
proxy.py:287-289 — if a non-empty remainder not ending in a newline is left,
write it downstream as-is and clear the buffer.  The decode step itself and
its `UnicodeDecodeError` chunk-skip path are `processByteChunk` below. -/
def processChunk (st : RelayAcc) (chunk : List Char) : RelayAcc :=
  let p := splitNl (st.buf ++ chunk)
  let log2 := st.log ++ p.1.filterMap lineLog
  let w2 := st.writes ++ p.1.map lineWrite
  if p.2 ≠ [] ∧ p.2.getLast? ≠ some '\n' then ⟨[], log2, w2 ++ [p.2]⟩
  else ⟨p.2, log2, w2⟩

/-- Feeding a sequence of decoded chunks through the relay loop. -/
def relay (chunks : List (List Char)) : RelayAcc :=
  chunks.foldl processChunk relayInit

/-! ### Structural lemmas about the line splitter -/

theorem splitNl_flatten (s : List Char) :
    ((splitNl s).1.map lineWrite).flatten ++ (splitNl s).2 = s := by
  induction s with
  | nil => rfl
  | cons c rest ih =>
    by_cases hc : c = '\n'
    · subst hc
      simpa [splitNl, lineWrite, List.append_assoc] using ih
    · rcases h : splitNl rest with ⟨ls, r⟩
      cases ls with
      | nil =>
        simp only [splitNl, if_neg hc, h]
        rw [h] at ih
        simpa using ih
      | cons l ls' =>
        simp only [splitNl, if_neg hc, h]
        rw [h] at ih
        simp only [List.map_cons, List.flatten_cons, lineWrite] at ih ⊢
        simpa using ih

theorem nl_not_mem_splitNl_rem (s : List Char) : '\n' ∉ (splitNl s).2 := by
  induction s with
  | nil => simp [splitNl]
  | cons c rest ih =>
    by_cases hc : c = '\n'
    · subst hc
      simpa [splitNl] using ih
    · rcases h : splitNl rest with ⟨ls, r⟩
      rw [h] at ih
      cases ls with
      | nil =>
        simp only [splitNl, if_neg hc, h]
        simp only [List.mem_cons, not_or] at *
        exact ⟨fun hne => hc hne.symm, ih⟩
      | cons l ls' => simpa [splitNl, if_neg hc, h] using ih

theorem getLast?_mem_of_eq {α : Type} {l : List α} {a : α}
    (h : l.getLast? = some a) : a ∈ l := by
  induction l with
  | nil => simp at h
  | cons x xs ih =>
    cases xs with
    | nil =>
      simp only [List.getLast?_singleton, Option.some.injEq] at h
      simp [h]
    | cons y ys =>
      rw [List.getLast?_cons_cons] at h
      exact List.mem_cons_of_mem _ (ih h)

/-- The remainder left by `splitNl` never ends in a newline, so the Python
condition `buffer and not buffer.endswith('\n')` (proxy.py:287) collapses to
`buffer != ''`: the chunk iteration always ends with an empty buffer, flushing
any non-empty remainder. -/
theorem processChunk_cases (st : RelayAcc) (c : List Char) :
    processChunk st c =
      ⟨[], st.log ++ (splitNl (st.buf ++ c)).1.filterMap lineLog,
        st.writes ++ (splitNl (st.buf ++ c)).1.map lineWrite ++
          (if (splitNl (st.buf ++ c)).2 = [] then []
           else [(splitNl (st.buf ++ c)).2])⟩ := by
  unfold processChunk
  by_cases h : (splitNl (st.buf ++ c)).2 = []
  · simp [h]
  · have hx : (splitNl (st.buf ++ c)).2.getLast? ≠ some '\n' := fun hlast =>
      nl_not_mem_splitNl_rem _ (getLast?_mem_of_eq hlast)
    simp [h, hx]

/-- After every chunk iteration the buffer is empty (proxy.py:287-289). -/
theorem processChunk_buf (st : RelayAcc) (c : List Char) :
    (processChunk st c).buf = [] := by
  rw [processChunk_cases]

/-- The frame log after a chunk iteration: the previous log extended by the
classification of each complete line of `buffer + chunk`. -/
theorem processChunk_log (st : RelayAcc) (c : List Char) :
    (processChunk st c).log =
      st.log ++ (splitNl (st.buf ++ c)).1.filterMap lineLog := by
  rw [processChunk_cases]

/-- One chunk iteration appends exactly the chunk's bytes (prefixed by the
pending buffer) to the downstream byte sequence. -/
theorem processChunk_writes_flatten (st : RelayAcc) (c : List Char) :
    (processChunk st c).writes.flatten = st.writes.flatten ++ st.buf ++ c := by
  rw [processChunk_cases]
  by_cases h : (splitNl (st.buf ++ c)).2 = []
  · have hfl := splitNl_flatten (st.buf ++ c)
    rw [h, List.append_nil] at hfl
    simp [h, hfl, List.append_assoc]
  · have hfl := splitNl_flatten (st.buf ++ c)
    simp only [h, if_neg, ite_false]
    simp only [List.flatten_append, List.flatten_cons, List.flatten_nil,
      List.append_nil, List.append_assoc]
    rw [hfl]

theorem relayList_writes_flatten (cs : List (List Char)) :
    ∀ st : RelayAcc, st.buf = [] →
      (cs.foldl processChunk st).writes.flatten = st.writes.flatten ++ cs.flatten := by
  induction cs with
  | nil => intro st _; simp
  | cons c cs ih =>
    intro st hb
    rw [List.foldl_cons, ih _ (processChunk_buf st c), processChunk_writes_flatten,
      hb]
    simp [List.append_assoc]

/-- At the character level (after each chunk survived its decode), the
concatenation of all downstream writes is the concatenation of the decoded
chunks. -/
theorem relay_writes_flatten (chunks : List (List Char)) :
    (relay chunks).writes.flatten = chunks.flatten := by
  rw [relay, relayList_writes_flatten chunks relayInit rfl]
  rfl

/-- When the first part leaves no remainder, line splitting distributes over
concatenation: the chunk boundary falls exactly on a line boundary. -/
theorem splitNl_append_of_rem_nil (a b : List Char) (h : (splitNl a).2 = []) :
    splitNl (a ++ b) = ((splitNl a).1 ++ (splitNl b).1, (splitNl b).2) := by
  induction a with
  | nil => simp [splitNl]
  | cons c a' ih =>
    by_cases hc : c = '\n'
    · subst hc
      have h' : (splitNl a').2 = [] := by simpa [splitNl] using h
      simp [splitNl, ih h', List.append_eq]
    · rcases ha : splitNl a' with ⟨ls, r⟩
      cases ls with
      | nil =>
        simp only [splitNl, if_neg hc, ha] at h
        exact absurd h (List.cons_ne_nil c r)
      | cons l ls' =>
        simp only [splitNl, if_neg hc, ha] at h
        have hr : (splitNl a').2 = [] := by rw [ha]; exact h
        have hab := ih hr
        rw [ha] at hab
        simp [splitNl, if_neg hc, List.append_eq, hab, ha]

/-- A text ending in a newline leaves no remainder when split into lines. -/
theorem splitNl_concat_nl (t : List Char) : (splitNl (t ++ ['\n'])).2 = [] := by
  induction t with
  | nil => simp [splitNl]
  | cons c t' ih =>
    by_cases hc : c = '\n'
    · subst hc
      simpa [splitNl] using ih
    · rcases h : splitNl (t' ++ ['\n']) with ⟨ls, r⟩
      rw [h] at ih
      subst ih
      cases ls with
      | nil =>
        exfalso
        have := splitNl_flatten (t' ++ ['\n'])
        rw [h] at this
        simp at this
      | cons l ls' => simp [splitNl, if_neg hc, h]

theorem relayList_log (cs : List (List Char))
    (hnl : ∀ c ∈ cs, c = [] ∨ c.getLast? = some '\n') :
    ∀ st : RelayAcc, st.buf = [] →
      (cs.foldl processChunk st).log =
        st.log ++ (splitNl cs.flatten).1.filterMap lineLog := by
  induction cs with
  | nil => intro st _; simp [splitNl]
  | cons c cs ih =>
    intro st hb
    have hrem : (splitNl c).2 = [] := by
      rcases hnl c (List.mem_cons_self c cs) with hce | hlast
      · simp [hce, splitNl]
      · rcases List.eq_nil_or_concat c with hce | ⟨d, x, rfl⟩
        · simp [hce, splitNl]
        · rw [List.concat_eq_append] at hlast ⊢
          rw [List.getLast?_concat] at hlast
          obtain rfl : x = '\n' := by injection hlast
          exact splitNl_concat_nl d
    have hstep := splitNl_append_of_rem_nil c cs.flatten hrem
    rw [List.foldl_cons,
      ih (fun x hx => hnl x (List.mem_cons_of_mem _ hx)) _ (processChunk_buf st c),
      processChunk_log, hb, List.nil_append, List.flatten_cons, hstep]
    simp [List.filterMap_append, List.append_assoc]

/-! ### Claims C1, C2, C9: the stream relay -/

/-- C1 (as stated, refuted): splitting the SSE stream
`event: ping\ndata: {"n":1}\n\n` into the two chunks `event: pi` and
`ng\ndata: {"n":1}\n\n` does not yield the same classified-frame log as
feeding it whole: the flush of proxy.py:287-289 clears the buffer, so the
split line is classified as `raw "ng"` instead of `event "ping"`. -/
theorem c1_counterexample :
    (relay ["event: pi".toList, "ng\ndata: \x7b\"n\":1\x7d\n\n".toList]).log ≠
      (relay ["event: ping\ndata: \x7b\"n\":1\x7d\n\n".toList]).log := by
  decide

/-- C1 (amended): the incremental framing is boundary-insensitive only for
partitions whose chunk boundaries fall on line boundaries: if every chunk is
empty or ends with a newline, feeding the chunks one at a time yields the
same classified-frame log as feeding the whole stream as one chunk.  A chunk
ending mid-line is flushed downstream and the buffer cleared, so such a line
is classified in fragments, not reassembled. -/
theorem c1_line_aligned_boundary_insensitive (chunks : List (List Char))
    (hnl : ∀ c ∈ chunks, c = [] ∨ c.getLast? = some '\n') :
    (relay chunks).log = (relay [chunks.flatten]).log := by
  rw [relay, relay, relayList_log chunks hnl relayInit rfl, List.foldl_cons,
    List.foldl_nil, processChunk_log]
  simp [relayInit]

theorem c1_witness :
    (∀ c ∈ ["event: a\n".toList, "data: b\n\n".toList],
        c = [] ∨ c.getLast? = some '\n') ∧
    (relay ["event: a\n".toList, "data: b\n\n".toList]).log =
      (relay [(["event: a\n".toList, "data: b\n\n".toList]).flatten]).log :=
  ⟨by decide, c1_line_aligned_boundary_insensitive _ (by decide)⟩

theorem lineLog_not_separator {line : List Char} {f : Frame}
    (h : lineLog line = some f) : f.kind ≠ FrameKind.separator := by
  unfold lineLog at h
  by_cases hs : pyStrip line = []
  · simp [hs] at h
  · rw [if_neg hs] at h
    injection h with h
    subst h
    unfold parse_sse_line
    split_ifs <;> simp_all

theorem relayList_no_separator (cs : List (List Char)) :
    ∀ st : RelayAcc, (∀ f ∈ st.log, f.kind ≠ FrameKind.separator) →
      ∀ f ∈ (cs.foldl processChunk st).log, f.kind ≠ FrameKind.separator := by
  induction cs with
  | nil => intro st h; exact h
  | cons c cs ih =>
    intro st h
    refine ih (processChunk st c) ?_
    intro f hf
    rw [processChunk_log] at hf
    rcases List.mem_append.mp hf with hfl | hfr
    · exact h f hfl
    · rcases List.mem_filterMap.mp hfr with ⟨line, _, hline⟩
      exact lineLog_not_separator hline

/-- C9: a relayed line that is empty or whitespace-only after stripping is
still written downstream with its newline, but no frame is recorded for it;
consequently a Separator frame never appears in the relay log, even though
blank lines are the SSE event boundaries. -/
theorem c9_blank_lines_forwarded_not_logged :
    (∀ line : List Char, pyStrip line = [] → lineLog line = none) ∧
    (∀ (st : RelayAcc) (c line : List Char),
        line ∈ (splitNl (st.buf ++ c)).1 →
          line ++ ['\n'] ∈ (processChunk st c).writes) ∧
    (∀ (chunks : List (List Char)), ∀ f ∈ (relay chunks).log,
        f.kind ≠ FrameKind.separator) := by
  refine ⟨fun line h => by simp [lineLog, h], fun st c line hline => ?_, ?_⟩
  · rw [processChunk_cases]
    refine List.mem_append.mpr (Or.inl (List.mem_append.mpr (Or.inr ?_)))
    exact List.mem_map_of_mem lineWrite hline
  · intro chunks f hf
    exact relayList_no_separator chunks relayInit (by intro f hf; simp [relayInit] at hf)
      f hf

theorem c9_witness :
    lineLog " ".toList = none ∧
    " ".toList ++ ['\n'] ∈ (processChunk relayInit " \n".toList).writes ∧
    (Frame.mk FrameKind.raw "x".toList).kind ≠ FrameKind.separator :=
  ⟨c9_blank_lines_forwarded_not_logged.1 " ".toList (by decide),
    c9_blank_lines_forwarded_not_logged.2.1 relayInit " \n".toList " ".toList
      (by decide),
    c9_blank_lines_forwarded_not_logged.2.2 ["x\n".toList]
      ⟨FrameKind.raw, "x".toList⟩ (by decide)⟩

/-! ### Request forwarding: headers, the unary path, the streaming session -/

/-- Header preparation on the unary path (proxy.py:183-186):
`headers_to_remove = ['host', 'content-length']` are popped from a copy of
the request headers. -/
def forwardHeadersUnary (hs : List (String × String)) : List (String × String) :=
  ["host", "content-length"].foldl
    (fun acc k => acc.filter (fun p => p.1 ≠ k)) hs

/-- Header preparation on the streaming path (proxy.py:248-249): only
`host` is popped. -/
def forwardHeadersSse (hs : List (String × String)) : List (String × String) :=
  hs.filter (fun p => p.1 ≠ "host")

/-- The `ClientTimeout(total=30)` used by `handle_http_request`
(proxy.py:189). -/
def unaryTimeoutSeconds : Nat := 30

/-- The upstream's reply as seen by the unary forwarder. -/
structure UpResp where
  status : Nat
  headers : List (String × String)
  body : String
  contentType : String
deriving DecidableEq

/-- The response the proxy hands back to its client. -/
structure DownResp where
  status : Nat
  headers : List (String × String)
  body : String
  contentType : String
deriving DecidableEq

/-- Result of the unary forwarder: the headers it forwarded upstream, the
response it returned downstream, and how many upstream attempts it made. -/
structure UnaryResult where
  forwarded : List (String × String)
  response : DownResp
  attempts : Nat
deriving DecidableEq

/-- `MCPSSEProxy.handle_http_request` (proxy.py:177-221): strip `host` and
`content-length`, make a single attempt against the target under the 30s
timeout, and either mirror the upstream status/headers/body/content type or
answer 502 with the failure reason as plain text.  The single upstream
attempt is the first (and only) element of the attempt oracle consulted. -/
def handle_http_request (reqHeaders : List (String × String))
    (attempt : Nat → Except String UpResp) : UnaryResult :=
  { forwarded := forwardHeadersUnary reqHeaders,
    response :=
      match attempt 0 with
      | .ok r => ⟨r.status, r.headers, r.body, r.contentType⟩
      | .error e =>
          ⟨502, [], "无法连接到目标服务器: " ++ e, "text/plain; charset=utf-8"⟩,
    attempts := 1 }

/-- Something `handle_sse_request` transmits to the downstream client: the
prepared streaming-response headers (`response.prepare`, proxy.py:231-243),
or one body write. -/
inductive DownMsg where
  | headers
  | body (bs : List Char)
deriving DecidableEq

/-- The synthetic error frame written on a streaming failure
(proxy.py:303). -/
def errorFrame (msg : List Char) : List Char :=
  "event: error\ndata: \x7b\"error\": \"代理服务器错误: ".toList ++ msg ++
    "\"\x7d\n\n".toList

/-- How one streaming session can end, seen from inside the `try` of
`handle_sse_request` after the client session was created: the upstream GET
itself raises (connect refused, DNS failure, timeout), the upstream stream
ends normally after some chunks, an exception interrupts the relay after
some chunks, or the downstream client cancels after some chunks. -/
inductive SseOutcome where
  | connectFail (msg : List Char)
  | streamEnd (chunks : List (List Char))
  | streamFail (chunks : List (List Char)) (msg : List Char)
  | cancelled (chunks : List (List Char))

/-- `active_connections[session_id] = client_session` (proxy.py:254):
CPython dict insertion appends a fresh key, keeps an existing one in place. -/
def insertActive (a : List String) (sid : String) : List String :=
  if sid ∈ a then a else a ++ [sid]

/-- Everything observable about one run of `handle_sse_request`
(proxy.py:223-317): the downstream transmissions in order, the frame log,
the active-connections map after the `finally` block, and how many times the
close-and-delete cleanup ran. -/
structure SseResult where
  downstream : List DownMsg
  log : List Frame
  activeAfter : List String
  cleanups : Nat

/-- `MCPSSEProxy.handle_sse_request`: prepare (send the streaming headers),
insert the session into `active_connections`, run the relay loop to its
outcome — writing the synthetic error frame on a failure, nothing extra on
cancellation — and in `finally` close the upstream session and delete the
map entry when present (proxy.py:308-315). -/
def handle_sse_request (active : List String) (sid : String)
    (reqHeaders : List (String × String)) (outcome : SseOutcome) :
    SseResult × List (String × String) :=
  let fwd := forwardHeadersSse reqHeaders
  let active1 := insertActive active sid
  let bodyLog : List DownMsg × List Frame :=
    match outcome with
    | .connectFail msg => ([DownMsg.body (errorFrame msg)], [])
    | .streamEnd chunks =>
        ((relay chunks).writes.map DownMsg.body, (relay chunks).log)
    | .streamFail chunks msg =>
        ((relay chunks).writes.map DownMsg.body ++ [DownMsg.body (errorFrame msg)],
          (relay chunks).log)
    | .cancelled chunks =>
        ((relay chunks).writes.map DownMsg.body, (relay chunks).log)
  let result : SseResult :=
    if sid ∈ active1 then
      ⟨DownMsg.headers :: bodyLog.1, bodyLog.2, active1.erase sid, 1⟩
    else
      ⟨DownMsg.headers :: bodyLog.1, bodyLog.2, active1, 0⟩
  (result, fwd)

theorem mem_insertActive (a : List String) (sid : String) :
    sid ∈ insertActive a sid := by
  unfold insertActive
  by_cases h : sid ∈ a
  · simp only [if_pos h]
    exact h
  · simp [h]

/-- C3 (as stated, refuted): the streaming path does not strip
`content-length` — a request carrying that header has it forwarded upstream
verbatim by `handle_sse_request`, which pops only `host`
(proxy.py:248-249). -/
theorem c3_counterexample :
    ("content-length", "3") ∈
      (handle_sse_request [] "s" [("content-length", "3")]
        (SseOutcome.streamEnd [])).2 := by
  decide

/-- C3 (amended): the unary path strips both `host` and `content-length`
and forwards every other header unchanged and in order (the forwarded set is
a sublist of the request headers); the streaming path strips only `host`,
leaving `content-length` intact. -/
theorem c3_header_stripping (hs : List (String × String)) (p : String × String)
    (active : List String) (sid : String) (outcome : SseOutcome)
    (attempt : Nat → Except String UpResp) :
    (p ∈ (handle_http_request hs attempt).forwarded ↔
        p ∈ hs ∧ p.1 ≠ "host" ∧ p.1 ≠ "content-length") ∧
    (p ∈ (handle_sse_request active sid hs outcome).2 ↔
        p ∈ hs ∧ p.1 ≠ "host") ∧
    List.Sublist (handle_http_request hs attempt).forwarded hs ∧
    List.Sublist (handle_sse_request active sid hs outcome).2 hs := by
  have hfwd : (handle_http_request hs attempt).forwarded =
      (hs.filter (fun p => p.1 ≠ "host")).filter
        (fun p => p.1 ≠ "content-length") := rfl
  have hsse : (handle_sse_request active sid hs outcome).2 =
      hs.filter (fun p => p.1 ≠ "host") := rfl
  refine ⟨?_, ?_, ?_, ?_⟩
  · rw [hfwd]
    simp only [List.mem_filter, decide_eq_true_iff, and_assoc]
  · rw [hsse]
    simp [List.mem_filter]
  · rw [hfwd]
    exact (List.filter_sublist (hs.filter _)).trans (List.filter_sublist hs)
  · rw [hsse]
    exact List.filter_sublist hs

/-- C4: the unary forwarder makes exactly one upstream attempt (it consults
only the first element of the attempt oracle), under the constant 30-second
total timeout; on success it returns the upstream status, headers, body and
content type, and on any network failure a 502 whose plain-text body carries
the failure reason. -/
theorem c4_unary_forwarder (hs : List (String × String)) (r : UpResp)
    (e : String) :
    unaryTimeoutSeconds = 30 ∧
    (∀ attempt, (handle_http_request hs attempt).attempts = 1) ∧
    (handle_http_request hs (fun _ => Except.ok r)).response =
      ⟨r.status, r.headers, r.body, r.contentType⟩ ∧
    (handle_http_request hs (fun _ => Except.error e)).response =
      ⟨502, [], "无法连接到目标服务器: " ++ e, "text/plain; charset=utf-8"⟩ := by
  exact ⟨rfl, fun _ => rfl, rfl, rfl⟩

/-- C5: on the streaming path a transport error can only occur after
`response.prepare` has sent the streaming headers — the stream has always
already started — and it is then surfaced as a synthetic
`event: error` / `data: {...}` frame: a connect failure produces exactly the
headers followed by that frame, every outcome's transmission starts with the
headers, and a mid-stream failure appends the frame as the final write. -/
theorem c5_stream_error_as_synthetic_frame (active : List String) (sid : String)
    (hs : List (String × String)) (msg : List Char) :
    (handle_sse_request active sid hs (SseOutcome.connectFail msg)).1.downstream =
      [DownMsg.headers, DownMsg.body (errorFrame msg)] ∧
    (∀ outcome : SseOutcome,
      (handle_sse_request active sid hs outcome).1.downstream.head? =
        some DownMsg.headers) ∧
    (∀ chunks : List (List Char),
      (handle_sse_request active sid hs
          (SseOutcome.streamFail chunks msg)).1.downstream.getLast? =
        some (DownMsg.body (errorFrame msg))) := by
  refine ⟨?_, ?_, ?_⟩
  · simp [handle_sse_request, mem_insertActive]
  · intro outcome
    unfold handle_sse_request
    by_cases h : sid ∈ insertActive active sid <;> simp [h]
  · intro chunks
    simp only [handle_sse_request, mem_insertActive, if_pos]
    rw [← List.cons_append, List.getLast?_concat]

/-- C6: for every exit path of a streaming session — normal end of stream,
connect failure, mid-stream error, or client cancellation — the
close-and-delete cleanup of the `finally` block runs exactly once, and the
active-connections map returns to its pre-stream value. -/
theorem c6_cleanup_exactly_once (active : List String) (sid : String)
    (hs : List (String × String)) (outcome : SseOutcome)
    (hfresh : sid ∉ active) :
    (handle_sse_request active sid hs outcome).1.cleanups = 1 ∧
    (handle_sse_request active sid hs outcome).1.activeAfter = active := by
  have h1 : insertActive active sid = active ++ [sid] := by
    simp [insertActive, hfresh]
  refine ⟨?_, ?_⟩
  · simp [handle_sse_request, mem_insertActive]
  · simp only [handle_sse_request, mem_insertActive, if_pos]
    rw [h1, List.erase_append_right _ hfresh, List.erase_cons_head,
      List.append_nil]

theorem c6_witness :
    (handle_sse_request [] "s" [] (SseOutcome.streamEnd [])).1.cleanups = 1 ∧
    (handle_sse_request [] "s" [] (SseOutcome.streamEnd [])).1.activeAfter = [] :=
  c6_cleanup_exactly_once [] "s" [] (SseOutcome.streamEnd []) (by decide)

/-! ### Request dispatch and the UTF-8 body decode (C10) -/

/-- A UTF-8 continuation byte. -/
def contByte (b : Nat) : Bool := decide (0x80 ≤ b) && decide (b ≤ 0xBF)

/-- Strict UTF-8 decoding of a byte sequence, as Python's
`bytes.decode('utf-8')` (proxy.py:148) performs it: rejects stray
continuation bytes, overlong encodings, surrogates and code points beyond
U+10FFFF. Returns `none` exactly when Python raises `UnicodeDecodeError`. -/
def utf8Decode : List Nat → Option (List Char)
  | [] => some []
  | b :: rest =>
    if b ≤ 0x7F then
      (utf8Decode rest).map (fun cs => Char.ofNat b :: cs)
    else if 0xC2 ≤ b ∧ b ≤ 0xDF then
      match rest with
      | b2 :: r =>
        if contByte b2 then
          (utf8Decode r).map
            (fun cs => Char.ofNat ((b - 0xC0) * 0x40 + (b2 - 0x80)) :: cs)
        else none
      | [] => none
    else if 0xE0 ≤ b ∧ b ≤ 0xEF then
      match rest with
      | b2 :: b3 :: r =>
        if contByte b2 ∧ contByte b3 ∧ (b = 0xE0 → 0xA0 ≤ b2) ∧
            (b = 0xED → b2 ≤ 0x9F) then
          (utf8Decode r).map
            (fun cs => Char.ofNat ((b - 0xE0) * 0x1000 + (b2 - 0x80) * 0x40 +
              (b3 - 0x80)) :: cs)
        else none
      | _ => none
    else if 0xF0 ≤ b ∧ b ≤ 0xF4 then
      match rest with
      | b2 :: b3 :: b4 :: r =>
        if contByte b2 ∧ contByte b3 ∧ contByte b4 ∧ (b = 0xF0 → 0x90 ≤ b2) ∧
            (b = 0xF4 → b2 ≤ 0x8F) then
          (utf8Decode r).map
            (fun cs => Char.ofNat ((b - 0xF0) * 0x40000 + (b2 - 0x80) * 0x1000 +
              (b3 - 0x80) * 0x40 + (b4 - 0x80)) :: cs)
        else none
      | _ => none
    else none

/-- One full iteration of the relay loop including the decode step
(proxy.py:268-296): the raw byte chunk is decoded as UTF-8 first; on
`UnicodeDecodeError` the error is logged and the loop `continue`s
(proxy.py:291-293) — the whole chunk is skipped, nothing reaches the buffer
and nothing is written downstream. -/
def processByteChunk (st : RelayAcc) (chunk : List Nat) : RelayAcc :=
  match utf8Decode chunk with
  | none => st
  | some text => processChunk st text

/-- Feeding the sequence of raw upstream byte chunks through the relay
loop of `handle_sse_request`. -/
def relayBytes (chunks : List (List Nat)) : RelayAcc :=
  chunks.foldl processByteChunk relayInit

/-- C2 (as stated, refuted): the upstream byte stream `é\n`
(`[0xC3, 0xA9, 0x0A]`) is well-formed UTF-8, but the partition
`[0xC3] | [0xA9, 0x0A]` splits the two-byte character, so each chunk fails
to decode on its own; the `UnicodeDecodeError` handler skips both chunks
(proxy.py:291-293) and nothing at all is written downstream — the stream is
lost, not forwarded verbatim. -/
theorem c2_counterexample :
    utf8Decode ([[0xC3], [0xA9, 0x0A]] : List (List Nat)).flatten =
      some "é\n".toList ∧
    (relayBytes [[0xC3], [0xA9, 0x0A]]).writes.flatten = [] := by
  constructor
  · decide
  · decide

/-- C2 (amended): forwarding is loss-less, verbatim and order-preserving for
every partition of the upstream bytes whose chunk boundaries fall on UTF-8
character boundaries — each chunk decodes on its own — and only for those:
the concatenation of everything written downstream then equals the
concatenation of the per-chunk decoded texts, i.e. the upstream stream; a
chunk that does not decode on its own is dropped wholesale. -/
theorem c2_char_aligned_verbatim (chunks : List (List Nat))
    (texts : List (List Char))
    (hdec : List.Forall₂ (fun c t => utf8Decode c = some t) chunks texts) :
    (relayBytes chunks).writes.flatten = texts.flatten := by
  have key : ∀ st : RelayAcc,
      List.foldl processByteChunk st chunks = List.foldl processChunk st texts := by
    induction hdec with
    | nil => intro st; rfl
    | cons hct _ ih =>
      intro st
      rw [List.foldl_cons, List.foldl_cons, processByteChunk, hct, ih]
  rw [relayBytes, key relayInit, relayList_writes_flatten texts relayInit rfl]
  rfl

theorem c2_witness :
    (relayBytes [[0x61, 0xC3, 0xA9, 0x0A]]).writes.flatten = "aé\n".toList := by
  have h := c2_char_aligned_verbatim [[0x61, 0xC3, 0xA9, 0x0A]] ["aé\n".toList]
    (List.Forall₂.cons (by decide) List.Forall₂.nil)
  simpa using h

/-- Case-insensitive substring test, for
`'text/event-stream' in accept_header` after `.lower()` (proxy.py:160-161). -/
def strContainsSub (hay needle : List Char) : Bool :=
  hay.tails.any (fun t => needle.isPrefixOf t)

/-- `request.headers.get('Accept', '')`: aiohttp header lookup is
case-insensitive; absent headers give the empty default. -/
def getHeader (hs : List (String × String)) (k : String) : String :=
  match hs.find? (fun p => p.1.toLower == k.toLower) with
  | some p => p.2
  | none => ""

/-- What `handle_request` produced, reduced to the claim-relevant parts: the
response status and content type sent downstream, and whether any upstream
request was made. -/
structure RequestOutcome where
  status : Nat
  contentType : String
  upstreamContacted : Bool
deriving DecidableEq

/-- `MCPSSEProxy.handle_request` (proxy.py:135-175): read and UTF-8-decode
the body; a decode failure raises inside the `try` and is answered with a
500 plain-text error, never reaching either forwarder; otherwise dispatch on
whether the lower-cased `Accept` header contains `text/event-stream`. -/
def handle_request (hs : List (String × String)) (bodyBytes : List Nat)
    (attempt : Nat → Except String UpResp) : RequestOutcome :=
  match utf8Decode bodyBytes with
  | none => ⟨500, "text/plain; charset=utf-8", false⟩
  | some _ =>
    if strContainsSub (getHeader hs "Accept").toLower.toList
        "text/event-stream".toList then
      ⟨200, "text/event-stream; charset=utf-8", true⟩
    else
      ⟨(handle_http_request hs attempt).response.status,
        (handle_http_request hs attempt).response.contentType, true⟩

/-- C10: a request whose body is not valid UTF-8 is answered with a 500
plain-text response and the upstream server is never contacted: the decode
happens before classification and the failure is caught by the top-level
handler. -/
theorem c10_invalid_utf8_body (hs : List (String × String))
    (bodyBytes : List Nat) (attempt : Nat → Except String UpResp)
    (hbad : utf8Decode bodyBytes = none) :
    handle_request hs bodyBytes attempt =
      ⟨500, "text/plain; charset=utf-8", false⟩ := by
  unfold handle_request
  rw [hbad]

theorem c10_witness :
    utf8Decode [0xFF] = none ∧
    handle_request [("Accept", "text/event-stream")] [0xFF]
        (fun _ => Except.error "unreachable") =
      ⟨500, "text/plain; charset=utf-8", false⟩ :=
  ⟨by decide,
    c10_invalid_utf8_body [("Accept", "text/event-stream")] [0xFF]
      (fun _ => Except.error "unreachable") (by decide)⟩

/-! ### The MCP tool aggregator (`mcp-proxy/proxy.py`, C7 and C8) -/

/-- One tool of a backend server's catalog. -/
structure Tool where
  name : String
  description : String
deriving DecidableEq

/-- Python `key in dict`. -/
def containsKey {α : Type} (d : List (String × α)) (k : String) : Bool :=
  d.any (fun p => p.1 == k)

/-- Python `dict[k] = v`: overwrite in place when the key exists, append a
fresh key at the end (CPython preserves insertion order). -/
def dictInsert {α : Type} (d : List (String × α)) (k : String) (v : α) :
    List (String × α) :=
  if containsKey d k then d.map (fun p => if p.1 = k then (k, v) else p)
  else d ++ [(k, v)]

/-- The aggregator's state: `self.servers` (name → catalog),
`self.tools_registry` (tool name → owning server name), and the collision
warnings issued so far (one per prefixed name, proxy.py:70-71). -/
structure MCPProxyState where
  servers : List (String × List Tool)
  tools_registry : List (String × String)
  warnings : List String
deriving DecidableEq

def proxyInit : MCPProxyState := ⟨[], [], []⟩

/-- The body of the `for tool in server_info["tools"]` loop of
`MCPProxy.register_server` (proxy.py:63-73): a truthy tool name that is
already a key of the registry is re-registered under
`f"{name}_{tool_name}"` with a warning; otherwise it is registered under its
own name. -/
def registerTool (sname : String)
    (acc : List (String × String) × List String) (t : Tool) :
    List (String × String) × List String :=
  if t.name ≠ "" then
    if containsKey acc.1 t.name then
      (dictInsert acc.1 (sname ++ "_" ++ t.name) sname,
        acc.2 ++ [sname ++ "_" ++ t.name])
    else (dictInsert acc.1 t.name sname, acc.2)
  else acc

/-- `MCPProxy.register_server` (proxy.py:32-80) in the successful-handshake
case: fold the catalog through the registration loop, then store the
server's info under its name. -/
def register_server (p : MCPProxyState) (sname : String)
    (catalog : List Tool) : MCPProxyState :=
  let rw2 := catalog.foldl (registerTool sname) (p.tools_registry, p.warnings)
  ⟨dictInsert p.servers sname catalog, rw2.1, rw2.2⟩

/-- `MCPProxy.get_all_tools` (proxy.py:110-124): every registered server
contributes every tool of its stored catalog, under the tool's own
(unprefixed) name, with the owning server attached. -/
def get_all_tools (p : MCPProxyState) : List (String × String × String) :=
  (p.servers.map (fun s => s.2.map (fun t => (t.name, t.description, s.1)))).flatten

/-- A server-name prefix strictly lengthens a tool name, so the prefixed
name never equals the original. -/
theorem toolName_ne_prefixed (sname tname : String) :
    tname ≠ sname ++ "_" ++ tname := by
  intro h
  have hl := congrArg String.length h
  have h1 : String.length "_" = 1 := rfl
  rw [String.length_append, String.length_append, h1] at hl
  omega

/-- C7 (as stated, refuted): registering the same server twice with the same
one-tool catalog does not leave the aggregate tool count unchanged — the
second registration finds the tool name already present, treats it as a
collision with itself, and adds a prefixed entry, growing the registry from
one entry to two. -/
theorem c7_counterexample :
    (register_server (register_server proxyInit "srv" [⟨"foo", "d"⟩]) "srv"
        [⟨"foo", "d"⟩]).tools_registry.length ≠
      (register_server proxyInit "srv" [⟨"foo", "d"⟩]).tools_registry.length := by
  decide

/-- C7 (amended): registering the same tool-server twice under the same name
with an identical single-tool catalog yields one server entry, but the
second registration adds the self-collision alias `<server>_<tool>` to the
registry and logs a warning, so the aggregate tool count doubles instead of
staying unchanged. -/
theorem c7_double_registration (sname : String) (t : Tool)
    (hne : t.name ≠ "") :
    register_server proxyInit sname [t] =
      ⟨[(sname, [t])], [(t.name, sname)], []⟩ ∧
    register_server (register_server proxyInit sname [t]) sname [t] =
      ⟨[(sname, [t])],
        [(t.name, sname), (sname ++ "_" ++ t.name, sname)],
        [sname ++ "_" ++ t.name]⟩ := by
  have hkey : ((t.name == sname ++ "_" ++ t.name) = false) :=
    beq_eq_false_iff_ne.mpr (toolName_ne_prefixed sname t.name)
  constructor
  · simp [register_server, registerTool, dictInsert, containsKey, proxyInit,
      hne]
  · simp [register_server, registerTool, dictInsert, containsKey, proxyInit,
      hne, hkey]

theorem c7_witness :
    register_server proxyInit "srv" [⟨"foo", "d"⟩] =
      ⟨[("srv", [⟨"foo", "d"⟩])], [("foo", "srv")], []⟩ ∧
    register_server (register_server proxyInit "srv" [⟨"foo", "d"⟩]) "srv"
        [⟨"foo", "d"⟩] =
      ⟨[("srv", [⟨"foo", "d"⟩])], [("foo", "srv"), ("srv_foo", "srv")],
        ["srv_foo"]⟩ :=
  c7_double_registration "srv" ⟨"foo", "d"⟩ (by decide)

/-- C8 (as stated, refuted): after registering `alpha` and then `beta`, both
exposing a tool `foo`, the aggregated catalog returned by `get_all_tools`
contains two entries named `foo` (one per server) and no entry named
`beta_foo`: the prefixed name lives only in the routing registry, not in the
catalog. -/
theorem c8_counterexample :
    ((get_all_tools (register_server (register_server proxyInit "alpha"
          [⟨"foo", "da"⟩]) "beta" [⟨"foo", "db"⟩])).filter
        (fun e => e.1 == "foo")).length = 2 ∧
    ((get_all_tools (register_server (register_server proxyInit "alpha"
          [⟨"foo", "da"⟩]) "beta" [⟨"foo", "db"⟩])).filter
        (fun e => e.1 == "beta_foo")).length = 0 := by
  decide

/-- C8 (amended): registering two servers that both expose a tool of the
same name leaves the routing registry with exactly the original name mapped
to the first-registered server and the prefixed `<second>_<tool>` mapped to
the second, and logs one collision warning; the aggregated catalog of
`get_all_tools`, however, lists both tools under their original name with
their owning servers, and contains no prefixed entry. -/
theorem c8_collision (a b : String) (ta tb : Tool) (hab : a ≠ b)
    (hname : tb.name = ta.name) (hne : ta.name ≠ "") :
    (register_server (register_server proxyInit a [ta]) b
        [tb]).tools_registry = [(ta.name, a), (b ++ "_" ++ ta.name, b)] ∧
    (register_server (register_server proxyInit a [ta]) b [tb]).warnings =
      [b ++ "_" ++ ta.name] ∧
    get_all_tools (register_server (register_server proxyInit a [ta]) b [tb]) =
      [(ta.name, ta.description, a), (ta.name, tb.description, b)] := by
  have hkey : ((ta.name == b ++ "_" ++ ta.name) = false) :=
    beq_eq_false_iff_ne.mpr (toolName_ne_prefixed b ta.name)
  have hba : ((a == b) = false) := beq_eq_false_iff_ne.mpr hab
  refine ⟨?_, ?_, ?_⟩ <;>
    simp [register_server, registerTool, dictInsert, containsKey, proxyInit,
      get_all_tools, hne, hkey, hba, hname]

theorem c8_witness :
    (register_server (register_server proxyInit "alpha" [⟨"foo", "da"⟩])
        "beta" [⟨"foo", "db"⟩]).tools_registry =
      [("foo", "alpha"), ("beta_foo", "beta")] ∧
    (register_server (register_server proxyInit "alpha" [⟨"foo", "da"⟩])
        "beta" [⟨"foo", "db"⟩]).warnings = ["beta_foo"] ∧
    get_all_tools (register_server (register_server proxyInit "alpha"
        [⟨"foo", "da"⟩]) "beta" [⟨"foo", "db"⟩]) =
      [("foo", "da", "alpha"), ("foo", "db", "beta")] :=
  c8_collision "alpha" "beta" ⟨"foo", "da"⟩ ⟨"foo", "db"⟩ (by decide) rfl
    (by decide)
